import Mathlib

/-!
Verification development for the OpenMed server-side catalog cache
(web/src/lib server cache module) and the medication PUT route handler
(web/src/app/api/medications/[id]/route.ts).

The TypeScript module keeps a process-wide mutable cache:
  let medicationsCache: OpenMedMedication[] | null = null;
  let cacheTimestamp: number = 0;
  const CACHE_DURATION = 30 * 60 * 1000;
  const BATCH_SIZE = 100;
We embed that state as the structure CacheState, and each exported function
as a pure Lean function from the pre-state (plus the current clock value and
a description of what the file system yields) to its result and post-state.
Instants are naturals (milliseconds, as Date.now()); arithmetic on clock
differences is done in Int exactly as JavaScript number arithmetic behaves
on these magnitudes.
-/

namespace OpenMed

open List

/-- The meta block of a medication record; of its fields only lastUpdated is
relevant to the properties below.  An ISO timestamp string is represented by
the instant it denotes. -/
structure MedMeta where
  version : String
  lastUpdated : Nat
  source : String
deriving Repr, DecidableEq

/-- A medication record.  The TypeScript interface has many more payload
fields (status, category, composition, pricing, ...); the cache and the PUT
handler only ever inspect the id and overwrite meta.lastUpdated, and treat
everything else as opaque payload, which the name field stands for here. -/
structure OpenMedMedication where
  id : String
  name : String
  meta : MedMeta
deriving Repr, DecidableEq

/-- const CACHE_DURATION = 30 * 60 * 1000 (30 minutes in milliseconds). -/
def CACHE_DURATION : Nat := 30 * 60 * 1000

/-- const BATCH_SIZE = 100. -/
def BATCH_SIZE : Nat := 100

/-- The module-level mutable state of the server cache:
medicationsCache (null represented as none) and cacheTimestamp. -/
structure CacheState where
  medicationsCache : Option (List OpenMedMedication)
  cacheTimestamp : Nat
deriving Repr, DecidableEq

/-- What one reload observes from the file system: either the directory
enumeration (fs.readdir) throws, or it yields the list of .json entries, each
entry being the outcome of reading and JSON-parsing that file (none when the
per-file read or parse throws, which the code catches and maps to null). -/
inductive SourceRead where
  | fail : SourceRead
  | entries : List (Option OpenMedMedication) → SourceRead
deriving Repr, DecidableEq

/-- The comparator (a, b) => a.id.localeCompare(b.id) passed to sort, read
as the Boolean test that a belongs no later than b: id order ascending
(lexicographic). -/
def idLeb (a b : OpenMedMedication) : Bool := a.id ≤ b.id

/-- medications.sort((a, b) => a.id.localeCompare(b.id)): stable sort of the
record list by id ascending; Array.prototype.sort is specified stable, and
mergeSort is the stable sort by the same key, so the two agree on every
input. -/
def sortById (l : List OpenMedMedication) : List OpenMedMedication :=
  l.mergeSort idLeb

/-- One batch: Promise.all over the per-file read-and-parse promises (which
preserves input order) followed by filtering out the nulls the per-file
catch handlers produced. -/
def parseBatch (batch : List (Option OpenMedMedication)) : List OpenMedMedication :=
  batch.filterMap id

/-- The batching loop: for (let i = 0; i < jsonFiles.length; i += BATCH_SIZE)
process jsonFiles.slice(i, i + BATCH_SIZE) and push the surviving records. -/
def processBatches (files : List (Option OpenMedMedication)) : List OpenMedMedication :=
  if files.isEmpty then []
  else parseBatch (files.take BATCH_SIZE) ++ processBatches (files.drop BATCH_SIZE)
termination_by files.length
decreasing_by
  simp only [List.length_drop]
  cases files with
  | nil => simp [List.isEmpty] at *
  | cons a l => simp [BATCH_SIZE]; omega

/-- The result of one getMedicationsFromCache call: the returned array, the
module state after the call, and how many full reload attempts (directory
enumerations) the call performed. -/
structure GetAllResult where
  result : List OpenMedMedication
  state : CacheState
  reloads : Nat
deriving Repr, DecidableEq

/-- The body of the try block of getMedicationsFromCache plus its catch
clause: enumerate, batch-read, sort, store and stamp; on a thrown
enumeration error return medicationsCache || [] with the state untouched. -/
def reloadFromFiles (s : CacheState) (now : Nat) : SourceRead → GetAllResult
  | SourceRead.fail => ⟨s.medicationsCache.getD [], s, 1⟩
  | SourceRead.entries files =>
      let meds := sortById (processBatches files)
      ⟨meds, ⟨some meds, now⟩, 1⟩

/-- getMedicationsFromCache: if (medicationsCache && (now - cacheTimestamp) <
CACHE_DURATION) return medicationsCache; otherwise run the reload. -/
def getMedicationsFromCache (s : CacheState) (now : Nat) (src : SourceRead) :
    GetAllResult :=
  match s.medicationsCache with
  | some cached =>
      if (now : Int) - (s.cacheTimestamp : Int) < (CACHE_DURATION : Int) then
        ⟨cached, s, 0⟩
      else reloadFromFiles s now src
  | none => reloadFromFiles s now src

/-- The body of updateMedicationInCache after the null guard: findIndex on
id, replace in place when found, push when not. -/
def replaceOrAppend (l : List OpenMedMedication) (med : OpenMedMedication) :
    List OpenMedMedication :=
  match l.findIdx? (fun m => m.id == med.id) with
  | some i => l.set i med
  | none => l ++ [med]

/-- updateMedicationInCache: no-op when medicationsCache is null; otherwise
replace-or-append by id, re-sort by id, and set cacheTimestamp to now. -/
def updateMedicationInCache (s : CacheState) (now : Nat)
    (med : OpenMedMedication) : CacheState :=
  match s.medicationsCache with
  | none => s
  | some l => ⟨some (sortById (replaceOrAppend l med)), now⟩

/-- The record getCacheStatus builds. -/
structure CacheStatus where
  hasCache : Bool
  isExpired : Bool
  cacheSize : Nat
  lastUpdated : Nat
  timeUntilExpiry : Int
  cacheDuration : Nat
deriving Repr, DecidableEq

/-- getCacheStatus: computes the monitoring record from the current state and
clock.  It assigns to no module variable, which the explicit post-state
(second component) makes visible: it is always the pre-state. -/
def getCacheStatus (s : CacheState) (now : Nat) : CacheStatus × CacheState :=
  (⟨s.medicationsCache.isSome,
    !s.medicationsCache.isSome
      || ((CACHE_DURATION : Int) ≤ (now : Int) - (s.cacheTimestamp : Int)),
    (s.medicationsCache.getD []).length,
    s.cacheTimestamp,
    if s.medicationsCache.isSome then
      (CACHE_DURATION : Int) - ((now : Int) - (s.cacheTimestamp : Int))
    else 0,
    CACHE_DURATION⟩, s)

/-- The medication directory seen by the PUT route handler, as a map from
file name to the record a later successful parse of that file would yield.
fs.writeFile(filePath, JSON.stringify(medication, null, 2)) creates or
replaces the entry at that path. -/
def writeRecordFile (fsys : String → Option OpenMedMedication) (nm : String)
    (med : OpenMedMedication) : String → Option OpenMedMedication :=
  fun n => if n = nm then some med else fsys n

/-- The server-side state the PUT handler touches: the catalog directory and
the module-level cache. -/
structure ServerState where
  fsys : String → Option OpenMedMedication
  cache : CacheState

/-- medication.meta.lastUpdated = new Date().toISOString(): overwrite the
lastUpdated field of the request body with the current instant. -/
def setLastUpdated (med : OpenMedMedication) (now : Nat) : OpenMedMedication :=
  { med with meta := { med.meta with lastUpdated := now } }

/-- The response body and post-state of one PUT call. -/
structure PutResult where
  response : OpenMedMedication
  state : ServerState

/-- The PUT handler of /api/medications/[id]: stamp meta.lastUpdated, write
the record to catalog/<params.id>.json, mirror it into the server cache via
updateMedicationInCache, and respond with the stamped record. -/
def PUT (pathId : String) (body : OpenMedMedication) (now : Nat)
    (st : ServerState) : PutResult :=
  let med := setLastUpdated body now
  ⟨med,
   ⟨writeRecordFile st.fsys (pathId ++ ".json") med,
    updateMedicationInCache st.cache now med⟩⟩

/-- The order used throughout: record ids compared lexicographically. -/
def idLe (a b : OpenMedMedication) : Prop := a.id ≤ b.id

/-- Splitting into batches of 100 and filtering each batch is the same as
filtering the whole enumeration: Promise.all preserves the order of its
input promises, so batching affects only scheduling, never content. -/
theorem processBatches_eq_filterMap (files : List (Option OpenMedMedication)) :
    processBatches files = files.filterMap id := by
  rw [processBatches]
  by_cases h : files.isEmpty
  · rw [if_pos h]
    rw [List.isEmpty_iff] at h
    subst h
    rfl
  · rw [if_neg h, processBatches_eq_filterMap (files.drop BATCH_SIZE)]
    rw [parseBatch, ← List.filterMap_append, List.take_append_drop]
termination_by files.length
decreasing_by
  simp only [List.length_drop]
  cases files with
  | nil => simp [List.isEmpty] at h
  | cons a l => simp [BATCH_SIZE]; omega

/-- Sorting permutes. -/
theorem sortById_perm (l : List OpenMedMedication) : sortById l ~ l :=
  List.mergeSort_perm l _

/-- The comparator is transitive. -/
theorem idLeb_trans (a b c : OpenMedMedication) :
    idLeb a b → idLeb b c → idLeb a c := by
  simp only [idLeb, decide_eq_true_eq]
  exact le_trans

/-- The comparator is total. -/
theorem idLeb_total (a b : OpenMedMedication) : idLeb a b || idLeb b a := by
  simp only [idLeb, Bool.or_eq_true, decide_eq_true_eq]
  exact le_total a.id b.id

/-- Sorting sorts: the output is pairwise ordered by id. -/
theorem sortById_sorted (l : List OpenMedMedication) :
    (sortById l).Pairwise idLe :=
  (List.sorted_mergeSort idLeb_trans idLeb_total l).imp
    (fun hd => by simpa [idLe, idLeb] using hd)

/-- A list already pairwise ordered by id is left unchanged by sortById. -/
theorem sortById_of_sorted {l : List OpenMedMedication}
    (h : l.Pairwise idLe) : sortById l = l :=
  List.mergeSort_of_sorted (h.imp (fun hd => by simpa [idLe, idLeb] using hd))

/-- Ids pairwise distinct, stated as nodup of the projected id list. -/
def NodupIds (l : List OpenMedMedication) : Prop :=
  (l.map (fun m => m.id)).Nodup

instance (l : List OpenMedMedication) : Decidable (NodupIds l) := by
  unfold NodupIds; infer_instance

/-- Nodup of the ids transfers along any permutation of the records. -/
theorem NodupIds.perm {l₁ l₂ : List OpenMedMedication} (h : l₁ ~ l₂)
    (hnd : NodupIds l₁) : NodupIds l₂ := by
  unfold NodupIds at hnd ⊢
  exact (h.map (fun m => m.id)).nodup hnd

/-- With pairwise-distinct ids there is exactly one sorted arrangement, so
sortById is invariant under permutation of its input. -/
theorem sortById_eq_of_perm {l₁ l₂ : List OpenMedMedication} (h : l₁ ~ l₂)
    (hnd : NodupIds l₁) : sortById l₁ = sortById l₂ := by
  have hperm : sortById l₁ ~ sortById l₂ :=
    (sortById_perm l₁).trans (h.trans (sortById_perm l₂).symm)
  haveI : IsAntisymm OpenMedMedication (fun a b => a.id < b.id) :=
    ⟨fun a b h1 h2 => absurd (lt_trans h1 h2) (lt_irrefl _)⟩
  have hstrict : ∀ m : List OpenMedMedication, NodupIds m →
      (sortById m).Pairwise (fun a b => a.id < b.id) := by
    intro m hm
    have hne : (sortById m).Pairwise (fun a b => a.id ≠ b.id) := by
      have hns : NodupIds (sortById m) :=
        NodupIds.perm (sortById_perm m).symm hm
      exact List.pairwise_map.mp hns
    exact ((sortById_sorted m).and hne).imp
      (fun hd => lt_of_le_of_ne hd.1 hd.2)
  exact List.eq_of_perm_of_sorted hperm
    (hstrict l₁ hnd)
    (hstrict l₂ (NodupIds.perm h hnd))

/-- The record being written always appears in the updated collection. -/
theorem mem_replaceOrAppend (l : List OpenMedMedication)
    (med : OpenMedMedication) : med ∈ replaceOrAppend l med := by
  rw [replaceOrAppend]
  cases hfi : l.findIdx? (fun m => m.id == med.id) with
  | none => simp
  | some i =>
      have hlt : i < l.length :=
        (List.findIdx?_eq_some_iff_findIdx_eq.mp hfi).1
      exact List.mem_set l i hlt med

/-- When the head does not match, findIndex-replace-or-push commutes with
the cons. -/
theorem replaceOrAppend_cons_of_ne {a med : OpenMedMedication}
    (t : List OpenMedMedication) (h : a.id ≠ med.id) :
    replaceOrAppend (a :: t) med = a :: replaceOrAppend t med := by
  have hb : (a.id == med.id) = false := by simpa using h
  rw [replaceOrAppend, replaceOrAppend, List.findIdx?_cons]
  simp only [hb, if_false, List.findIdx?_start_succ]
  cases hfi : t.findIdx? (fun m => m.id == med.id) <;> simp [hfi]

/-- When the head matches, the head is the first match, and it is replaced. -/
theorem replaceOrAppend_cons_of_eq {a med : OpenMedMedication}
    (t : List OpenMedMedication) (h : a.id = med.id) :
    replaceOrAppend (a :: t) med = med :: t := by
  have hb : (a.id == med.id) = true := by simpa using h
  rw [replaceOrAppend, List.findIdx?_cons]
  simp [hb]

/-- When no existing record carries the incoming id, findIndex misses and
the record is pushed at the end. -/
theorem replaceOrAppend_of_not_mem {l : List OpenMedMedication}
    {med : OpenMedMedication} (h : ∀ x ∈ l, x.id ≠ med.id) :
    replaceOrAppend l med = l ++ [med] := by
  rw [replaceOrAppend]
  have hn : l.findIdx? (fun m => m.id == med.id) = none := by
    rw [List.findIdx?_eq_none_iff]
    intro x hx
    simpa using h x hx
  rw [hn]

/-- When some existing record carries the incoming id, the in-place
replacement keeps the collection size. -/
theorem length_replaceOrAppend_of_mem {l : List OpenMedMedication}
    {med : OpenMedMedication} (h : ∃ x ∈ l, x.id = med.id) :
    (replaceOrAppend l med).length = l.length := by
  rw [replaceOrAppend]
  have hex : ∃ x, x ∈ l ∧ (fun m : OpenMedMedication => m.id == med.id) x := by
    obtain ⟨x, hx, hid⟩ := h
    exact ⟨x, hx, by simpa using hid⟩
  rw [List.findIdx?_eq_some_of_exists hex]
  exact List.length_set ..

/-- Under distinct ids, the updated collection is, up to order, the old
records of other ids together with the incoming record. -/
theorem replaceOrAppend_perm {l : List OpenMedMedication}
    {med : OpenMedMedication} (hnd : NodupIds l) :
    replaceOrAppend l med ~
      (l.filter fun x => x.id ≠ med.id) ++ [med] := by
  induction l with
  | nil => simp [replaceOrAppend]
  | cons a t ih =>
      have hnd' : NodupIds t := by
        rw [NodupIds, List.map_cons, List.nodup_cons] at hnd
        exact hnd.2
      by_cases h : a.id = med.id
      · rw [replaceOrAppend_cons_of_eq t h]
        have htf : t.filter (fun x => x.id ≠ med.id) = t := by
          rw [List.filter_eq_self]
          intro x hx
          simp only [decide_eq_true_eq]
          intro he
          rw [NodupIds, List.map_cons, List.nodup_cons] at hnd
          have hax : a.id = x.id := h.trans he.symm
          have hmem : x.id ∈ t.map (fun m => m.id) :=
            List.mem_map_of_mem (fun m => m.id) hx
          exact hnd.1 (hax ▸ hmem)
        have hcond : (decide (¬a.id = med.id)) = false := by simp [h]
        rw [List.filter_cons]
        simp only [ne_eq, hcond, if_false]
        rw [htf]
        exact (List.perm_append_singleton med t).symm
      · have hcond : (decide (¬a.id = med.id)) = true := by simp [h]
        rw [replaceOrAppend_cons_of_ne t h, List.filter_cons]
        simp only [ne_eq, hcond, if_true, List.cons_append]
        exact (ih hnd').cons a

/-- Valid records appear in the reload result, batch structure removed. -/
theorem reloadFromFiles_entries (s : CacheState) (now : Nat)
    (files : List (Option OpenMedMedication)) :
    reloadFromFiles s now (SourceRead.entries files) =
      ⟨sortById (files.filterMap id),
       ⟨some (sortById (files.filterMap id)), now⟩, 1⟩ := by
  rw [reloadFromFiles, processBatches_eq_filterMap]

/-- Counting the parse failures against the enumeration length. -/
theorem length_filterMap_id_add_count (files : List (Option OpenMedMedication)) :
    (files.filterMap id).length + files.count none = files.length := by
  induction files with
  | nil => rfl
  | cons f t ih =>
      cases f <;> simp [List.filterMap_cons, List.count_cons] <;> omega

/-- A sample record with id A. -/
def medA : OpenMedMedication := ⟨"A", "alpha", ⟨"1", 0, "moh"⟩⟩

/-- A sample record with id B. -/
def medB : OpenMedMedication := ⟨"B", "beta", ⟨"1", 0, "moh"⟩⟩

/-- A sample record with id C. -/
def medC : OpenMedMedication := ⟨"C", "gamma", ⟨"1", 0, "moh"⟩⟩

/-- Claim C1: with records present and now minus timestamp below the ttl,
getMedicationsFromCache returns the cached sequence unchanged, performs no
source enumeration (zero reloads) and leaves the state as it was; with the
cache absent or expired it performs exactly one full reload, and (when the
source enumeration succeeds) stores the sorted parse result and refreshes
the timestamp to now. -/
theorem claim_C1_ttl_honored (s : CacheState) (now : Nat) (src : SourceRead) :
    (∀ cached, s.medicationsCache = some cached →
      (now : Int) - (s.cacheTimestamp : Int) < (CACHE_DURATION : Int) →
      getMedicationsFromCache s now src = ⟨cached, s, 0⟩)
    ∧ ((s.medicationsCache = none ∨
        (CACHE_DURATION : Int) ≤ (now : Int) - (s.cacheTimestamp : Int)) →
      (getMedicationsFromCache s now src).reloads = 1
      ∧ ∀ files, src = SourceRead.entries files →
          getMedicationsFromCache s now src =
            ⟨sortById (files.filterMap id),
             ⟨some (sortById (files.filterMap id)), now⟩, 1⟩) := by
  obtain ⟨mc, ts⟩ := s
  constructor
  · intro cached hmc hlt
    simp only [CacheState.medicationsCache] at hmc
    subst hmc
    simp only [getMedicationsFromCache, CacheState.cacheTimestamp]
    rw [if_pos (by exact_mod_cast hlt)]
  · intro hexp
    have hreload : getMedicationsFromCache ⟨mc, ts⟩ now src =
        reloadFromFiles ⟨mc, ts⟩ now src := by
      cases mc with
      | none => rfl
      | some cached =>
          rcases hexp with hnone | hge
          · exact absurd hnone (by simp)
          · simp only [getMedicationsFromCache]
            rw [if_neg (by exact_mod_cast not_lt.mpr hge)]
    constructor
    · rw [hreload]
      cases src <;> simp [reloadFromFiles]
    · intro files hsrc
      subst hsrc
      rw [hreload, reloadFromFiles_entries]

/-- Concrete run of claim C1: a fresh cache is served with no reload, and an
expired cache is fully reloaded, sorted and restamped. -/
theorem claim_C1_witness :
    getMedicationsFromCache ⟨some [medA], 1000⟩ 2000 SourceRead.fail
      = ⟨[medA], ⟨some [medA], 1000⟩, 0⟩
    ∧ getMedicationsFromCache ⟨some [medA], 1000⟩ 1801000
        (SourceRead.entries [some medC, none, some medB])
      = ⟨[medB, medC], ⟨some [medB, medC], 1801000⟩, 1⟩ := by
  constructor
  · exact (claim_C1_ttl_honored ⟨some [medA], 1000⟩ 2000 SourceRead.fail).1
      [medA] rfl (by decide)
  · have h := ((claim_C1_ttl_honored ⟨some [medA], 1000⟩ 1801000
      (SourceRead.entries [some medC, none, some medB])).2
      (Or.inr (by decide))).2 [some medC, none, some medB] rfl
    rw [h]
    have hs : sortById ([some medC, none, some medB].filterMap id)
        = [medB, medC] := by
      simp [sortById, idLeb, List.mergeSort, List.merge, medB, medC]
      decide
    rw [hs]

/-- Claim C2: one full reload over a fixed source yields the parsed records
sorted by id ascending, and two reloads over the same entries, in whatever
enumeration order, yield identical sequences (the data model requires ids
to be unique across the source files, which the nodup hypothesis states). -/
theorem claim_C2_reload_deterministic (s₁ s₂ : CacheState) (t₁ t₂ : Nat)
    (files₁ files₂ : List (Option OpenMedMedication))
    (hperm : files₁ ~ files₂)
    (hnd : NodupIds (files₁.filterMap id)) :
    (reloadFromFiles s₁ t₁ (SourceRead.entries files₁)).result
      = sortById (files₁.filterMap id)
    ∧ (reloadFromFiles s₁ t₁ (SourceRead.entries files₁)).result.Pairwise idLe
    ∧ (reloadFromFiles s₁ t₁ (SourceRead.entries files₁)).result
        = (reloadFromFiles s₂ t₂ (SourceRead.entries files₂)).result := by
  have e₁ : (reloadFromFiles s₁ t₁ (SourceRead.entries files₁)).result
      = sortById (files₁.filterMap id) := by rw [reloadFromFiles_entries]
  have e₂ : (reloadFromFiles s₂ t₂ (SourceRead.entries files₂)).result
      = sortById (files₂.filterMap id) := by rw [reloadFromFiles_entries]
  refine ⟨e₁, ?_, ?_⟩
  · rw [e₁]
    exact sortById_sorted _
  · rw [e₁, e₂]
    exact sortById_eq_of_perm (hperm.filterMap id) hnd

/-- Concrete run of claim C2: two enumeration orders of the same three
entries (one of them malformed) produce the same sorted output. -/
theorem claim_C2_witness :
    (reloadFromFiles ⟨none, 0⟩ 5
        (SourceRead.entries [some medC, none, some medA])).result
      = [medA, medC]
    ∧ (reloadFromFiles ⟨some [medB], 3⟩ 7
        (SourceRead.entries [none, some medC, some medA])).result
      = [medA, medC] := by
  obtain ⟨e₁, -, e₃⟩ := claim_C2_reload_deterministic ⟨none, 0⟩ ⟨some [medB], 3⟩
    5 7 [some medC, none, some medA] [none, some medC, some medA]
    (List.Perm.swap none (some medC) [some medA]) (by decide)
  have hs : sortById ([some medC, none, some medA].filterMap id)
      = [medA, medC] := by
    simp [sortById, idLeb, List.mergeSort, List.merge, medA, medC]
    decide
  exact ⟨e₁.trans hs, e₃.symm.trans (e₁.trans hs)⟩

/-- Claim C3: when exactly one of the N enumerated entries fails to parse,
the reload returns the N minus one valid records (sorted), drops only the
malformed entry, and does not come back empty once a valid record exists. -/
theorem claim_C3_partial_failure_tolerated (s : CacheState) (now : Nat)
    (files : List (Option OpenMedMedication))
    (hone : files.count none = 1) :
    (reloadFromFiles s now (SourceRead.entries files)).result
      = sortById (files.filterMap id)
    ∧ (reloadFromFiles s now (SourceRead.entries files)).result.length
        = files.length - 1
    ∧ (2 ≤ files.length →
        (reloadFromFiles s now (SourceRead.entries files)).result ≠ []) := by
  have e : (reloadFromFiles s now (SourceRead.entries files)).result
      = sortById (files.filterMap id) := by rw [reloadFromFiles_entries]
  have hlen : (reloadFromFiles s now (SourceRead.entries files)).result.length
      = files.length - 1 := by
    rw [e, (sortById_perm _).length_eq]
    have := length_filterMap_id_add_count files
    omega
  refine ⟨e, hlen, ?_⟩
  intro h2 hnil
  rw [hnil] at hlen
  simp at hlen
  omega

/-- Concrete run of claim C3: three entries, one malformed, two survivors. -/
theorem claim_C3_witness :
    (reloadFromFiles ⟨none, 0⟩ 5
        (SourceRead.entries [some medC, none, some medA])).result.length = 2
    ∧ (reloadFromFiles ⟨none, 0⟩ 5
        (SourceRead.entries [some medC, none, some medA])).result ≠ [] := by
  obtain ⟨-, hlen, hne⟩ := claim_C3_partial_failure_tolerated ⟨none, 0⟩ 5
    [some medC, none, some medA] (by decide)
  exact ⟨hlen, hne (by decide)⟩

/-- Claim C4: when the source enumeration of a reload fails,
getMedicationsFromCache returns the prior records value when one exists and
the empty sequence otherwise, and it leaves records and timestamp exactly
as they were, so the next expired call attempts the reload again. -/
theorem claim_C4_stale_fallback (s : CacheState) (now : Nat) :
    (getMedicationsFromCache s now SourceRead.fail).result
      = s.medicationsCache.getD []
    ∧ (getMedicationsFromCache s now SourceRead.fail).state = s := by
  obtain ⟨mc, ts⟩ := s
  cases mc with
  | none => exact ⟨rfl, rfl⟩
  | some cached =>
      simp only [getMedicationsFromCache]
      by_cases hlt : (now : Int) - (ts : Int) < (CACHE_DURATION : Int)
      · rw [if_pos (by exact_mod_cast hlt)]
        exact ⟨rfl, rfl⟩
      · rw [if_neg (by exact_mod_cast hlt)]
        exact ⟨rfl, rfl⟩

/-- A later version of the record with id C: same key, changed payload. -/
def medCv2 : OpenMedMedication := ⟨"C", "changed", ⟨"2", 5, "moh"⟩⟩

/-- Claim C5: on a populated cache an update with a fresh id grows the
collection by one and keeps it sorted; an update with an existing id keeps
the size and replaces the record carried under that id; in both cases the
incoming record is in the collection afterwards and the timestamp is
refreshed to now. -/
theorem claim_C5_insert_vs_replace (l : List OpenMedMedication) (t now : Nat)
    (med : OpenMedMedication) (hnd : NodupIds l) :
    ∃ l', updateMedicationInCache ⟨some l, t⟩ now med = ⟨some l', now⟩
      ∧ l'.Pairwise idLe
      ∧ med ∈ l'
      ∧ ((∀ x ∈ l, x.id ≠ med.id) → l'.length = l.length + 1)
      ∧ ((∃ x ∈ l, x.id = med.id) →
          l'.length = l.length ∧ ∀ x ∈ l', x.id = med.id → x = med) := by
  refine ⟨sortById (replaceOrAppend l med), rfl, sortById_sorted _, ?_, ?_, ?_⟩
  · exact (sortById_perm _).mem_iff.mpr (mem_replaceOrAppend l med)
  · intro habs
    rw [(sortById_perm _).length_eq, replaceOrAppend_of_not_mem habs]
    simp
  · intro hpres
    refine ⟨?_, ?_⟩
    · rw [(sortById_perm _).length_eq, length_replaceOrAppend_of_mem hpres]
    · intro x hx hid
      have hx' : x ∈ replaceOrAppend l med := (sortById_perm _).mem_iff.mp hx
      have hmm : x ∈ (l.filter fun y => y.id ≠ med.id) ++ [med] :=
        (replaceOrAppend_perm hnd).mem_iff.mp hx'
      rcases List.mem_append.mp hmm with hf | hm
      · have hq := List.of_mem_filter hf
        simp only [decide_eq_true_eq] at hq
        exact absurd hid hq
      · simpa using hm

/-- Concrete run of claim C5: inserting record B into a cache holding A and
C grows it to three records; rewriting id C keeps two records and the new
payload is present. -/
theorem claim_C5_witness :
    (∃ l', updateMedicationInCache ⟨some [medA, medC], 100⟩ 500 medB
        = ⟨some l', 500⟩ ∧ l'.length = 3 ∧ medB ∈ l')
    ∧ (∃ l', updateMedicationInCache ⟨some [medA, medC], 100⟩ 500 medCv2
        = ⟨some l', 500⟩ ∧ l'.length = 2 ∧ medCv2 ∈ l') := by
  constructor
  · obtain ⟨l', he, -, hm, hins, -⟩ :=
      claim_C5_insert_vs_replace [medA, medC] 100 500 medB (by decide)
    exact ⟨l', he, by simpa using hins (by decide), hm⟩
  · obtain ⟨l', he, -, hm, -, hrep⟩ :=
      claim_C5_insert_vs_replace [medA, medC] 100 500 medCv2 (by decide)
    exact ⟨l', he, by simpa using (hrep (by decide)).1, hm⟩

/-- Claim C6: before any successful load (records absent) an update is a
silent no-op: records and timestamp are exactly as before the call. -/
theorem claim_C6_update_unpopulated (s : CacheState) (now : Nat)
    (med : OpenMedMedication) (h : s.medicationsCache = none) :
    updateMedicationInCache s now med = s := by
  obtain ⟨mc, ts⟩ := s
  simp only at h
  subst h
  rfl

/-- Concrete run of claim C6: updating an unpopulated cache changes
nothing, not even the timestamp. -/
theorem claim_C6_witness :
    updateMedicationInCache ⟨none, 42⟩ 99 medA = ⟨none, 42⟩ :=
  claim_C6_update_unpopulated ⟨none, 42⟩ 99 medA rfl

/-- Claim C7: updating twice with the identical record leaves the stored
collection of the second call equal to that of the first, size and order
included. -/
theorem claim_C7_update_idempotent (l : List OpenMedMedication)
    (t t₁ t₂ : Nat) (med : OpenMedMedication) (hnd : NodupIds l) :
    (updateMedicationInCache
        (updateMedicationInCache ⟨some l, t⟩ t₁ med) t₂ med).medicationsCache
      = (updateMedicationInCache ⟨some l, t⟩ t₁ med).medicationsCache := by
  have hp : replaceOrAppend l med ~
      (l.filter fun y => y.id ≠ med.id) ++ [med] := replaceOrAppend_perm hnd
  have hndf : NodupIds ((l.filter fun y => y.id ≠ med.id) ++ [med]) := by
    unfold NodupIds
    rw [List.map_append]
    refine List.Nodup.append ?_ (by simp) ?_
    · have hnd' : (l.map (fun m => m.id)).Nodup := hnd
      exact ((List.filter_sublist l).map (fun m => m.id)).nodup hnd'
    · intro a haf ham
      simp only [List.map_cons, List.map_nil, List.mem_singleton] at ham
      subst ham
      obtain ⟨x, hxf, hxa⟩ := List.mem_map.mp haf
      have hq := List.of_mem_filter hxf
      simp only [decide_eq_true_eq] at hq
      exact hq hxa
  have hnd₁ : NodupIds (sortById (replaceOrAppend l med)) :=
    NodupIds.perm (sortById_perm _).symm (NodupIds.perm hp.symm hndf)
  have hchain : sortById (replaceOrAppend l med) ~
      (l.filter fun y => y.id ≠ med.id) ++ [med] :=
    (sortById_perm _).trans hp
  have hfix : replaceOrAppend (sortById (replaceOrAppend l med)) med ~
      sortById (replaceOrAppend l med) := by
    refine (replaceOrAppend_perm hnd₁).trans ?_
    have hff : (sortById (replaceOrAppend l med)).filter
        (fun y => y.id ≠ med.id) ~ l.filter fun y => y.id ≠ med.id := by
      refine (hchain.filter _).trans ?_
      rw [List.filter_append]
      have h1 : (l.filter fun y => y.id ≠ med.id).filter
          (fun y => y.id ≠ med.id) = l.filter fun y => y.id ≠ med.id := by
        rw [List.filter_eq_self]
        intro a ha
        exact (List.mem_filter.mp ha).2
      have h2 : [med].filter (fun y => y.id ≠ med.id) = [] := by simp
      rw [h1, h2, List.append_nil]
    exact ((hff.append_right [med]).trans hchain.symm)
  calc (updateMedicationInCache
        (updateMedicationInCache ⟨some l, t⟩ t₁ med) t₂ med).medicationsCache
      = some (sortById (replaceOrAppend (sortById (replaceOrAppend l med))
          med)) := rfl
    _ = some (sortById (sortById (replaceOrAppend l med))) := by
        rw [sortById_eq_of_perm hfix (NodupIds.perm hfix.symm hnd₁)]
    _ = some (sortById (replaceOrAppend l med)) := by
        rw [sortById_of_sorted (sortById_sorted _)]

/-- Concrete run of claim C7: pushing record B into the cache twice leaves
the collection exactly as after the first push. -/
theorem claim_C7_witness :
    (updateMedicationInCache
        (updateMedicationInCache ⟨some [medA, medC], 100⟩ 200 medB) 300
        medB).medicationsCache
      = (updateMedicationInCache
          ⟨some [medA, medC], 100⟩ 200 medB).medicationsCache :=
  claim_C7_update_idempotent [medA, medC] 100 200 300 medB (by decide)

/-- Claim C8: every record accepted by the PUT handler is stamped with the
current instant in meta.lastUpdated before being persisted to its file and
mirrored into the cache: the responded record, the record stored under
the path-derived file name, and the record placed in the cache all carry
lastUpdated equal to the time of this write. -/
theorem claim_C8_lastUpdated_stamped (pathId : String)
    (body : OpenMedMedication) (now : Nat) (st : ServerState) :
    (PUT pathId body now st).response.meta.lastUpdated = now
    ∧ (PUT pathId body now st).state.fsys (pathId ++ ".json")
        = some (PUT pathId body now st).response
    ∧ (∀ l, st.cache.medicationsCache = some l →
        ∃ l', (PUT pathId body now st).state.cache = ⟨some l', now⟩
          ∧ (PUT pathId body now st).response ∈ l') := by
  refine ⟨rfl, ?_, ?_⟩
  · simp [PUT, writeRecordFile]
  · intro l hl
    obtain ⟨fsys, cache⟩ := st
    obtain ⟨mc, ts⟩ := cache
    simp only at hl
    subst hl
    exact ⟨sortById (replaceOrAppend l (setLastUpdated body now)), rfl,
      (sortById_perm _).mem_iff.mpr (mem_replaceOrAppend l _)⟩

/-- Concrete run of claim C8: a PUT at time 777 responds with, persists and
caches a record whose lastUpdated is 777, whatever the body carried. -/
theorem claim_C8_witness :
    (PUT ("B") medB 777 ⟨fun _ => none, ⟨some [medA], 10⟩⟩).response.meta.lastUpdated
      = 777
    ∧ (PUT ("B") medB 777 ⟨fun _ => none, ⟨some [medA], 10⟩⟩).state.fsys ("B.json")
        = some (PUT ("B") medB 777 ⟨fun _ => none, ⟨some [medA], 10⟩⟩).response
    ∧ ∃ l', (PUT ("B") medB 777
          ⟨fun _ => none, ⟨some [medA], 10⟩⟩).state.cache = ⟨some l', 777⟩
        ∧ (PUT ("B") medB 777 ⟨fun _ => none, ⟨some [medA], 10⟩⟩).response ∈ l' := by
  obtain ⟨h1, h2, h3⟩ :=
    claim_C8_lastUpdated_stamped ("B") medB 777 ⟨fun _ => none, ⟨some [medA], 10⟩⟩
  exact ⟨h1, h2, h3 [medA] rfl⟩

/-- Claim C9: getCacheStatus is a pure read: the state after the call is
the state before it, and its fields report population, size, last update
instant, the ttl constant, and an expiry flag that is false exactly when a
getAll issued at the same instant would perform no reload. -/
theorem claim_C9_status_pure (s : CacheState) (now : Nat) (src : SourceRead) :
    (getCacheStatus s now).2 = s
    ∧ (getCacheStatus s now).1.hasCache = s.medicationsCache.isSome
    ∧ (getCacheStatus s now).1.cacheSize = (s.medicationsCache.getD []).length
    ∧ (getCacheStatus s now).1.lastUpdated = s.cacheTimestamp
    ∧ (getCacheStatus s now).1.cacheDuration = CACHE_DURATION
    ∧ ((getCacheStatus s now).1.isExpired = false ↔
        (getMedicationsFromCache s now src).reloads = 0) := by
  refine ⟨rfl, rfl, rfl, rfl, rfl, ?_⟩
  obtain ⟨mc, ts⟩ := s
  cases mc with
  | none =>
      simp only [getCacheStatus, getMedicationsFromCache, Option.isSome_none,
        Bool.not_false, Bool.true_or]
      constructor
      · intro h
        exact absurd h (by simp)
      · intro h
        cases src <;> simp [reloadFromFiles] at h
  | some cached =>
      simp only [getCacheStatus, getMedicationsFromCache, Option.isSome_some,
        Bool.not_true, Bool.false_or]
      by_cases hlt : (now : Int) - (ts : Int) < (CACHE_DURATION : Int)
      · rw [if_pos (by exact_mod_cast hlt)]
        simp only [decide_eq_false_iff_not, not_le]
        exact ⟨fun _ => trivial, fun _ => by exact_mod_cast hlt⟩
      · rw [if_neg (by exact_mod_cast hlt)]
        simp only [decide_eq_false_iff_not, not_le]
        constructor
        · intro h
          exact absurd (by exact_mod_cast h) hlt
        · intro h
          cases src <;> simp [reloadFromFiles] at h

/-- Claim C10: the PUT write path is keyed twice and inconsistently: the
file written is named after the URL path id while the cache entry is keyed
by the id field inside the body.  When they differ, the file named after
the path id ends up holding a record of the body id, and the cache gains or
replaces an entry under the body id while any entry under the path id is
left as it was. -/
theorem claim_C10_put_key_mismatch (pathId : String)
    (body : OpenMedMedication) (now : Nat) (st : ServerState)
    (hne : body.id ≠ pathId) :
    ∃ med, (PUT pathId body now st).state.fsys (pathId ++ ".json") = some med
      ∧ med.id = body.id
      ∧ med.id ≠ pathId
      ∧ (∀ l, st.cache.medicationsCache = some l →
          ∃ l', (PUT pathId body now st).state.cache.medicationsCache
              = some l'
            ∧ (∃ x ∈ l', x.id = body.id)
            ∧ ((∀ x ∈ l, x.id ≠ body.id) →
                l'.length = l.length + 1 ∧ ∀ x ∈ l, x ∈ l')) := by
  refine ⟨setLastUpdated body now, by simp [PUT, writeRecordFile], rfl, hne, ?_⟩
  intro l hl
  obtain ⟨fsys, cache⟩ := st
  obtain ⟨mc, ts⟩ := cache
  simp only at hl
  subst hl
  refine ⟨sortById (replaceOrAppend l (setLastUpdated body now)), rfl, ?_, ?_⟩
  · exact ⟨setLastUpdated body now,
      (sortById_perm _).mem_iff.mpr (mem_replaceOrAppend l _), rfl⟩
  · intro habs
    have habs' : ∀ x ∈ l, x.id ≠ (setLastUpdated body now).id := habs
    rw [replaceOrAppend_of_not_mem habs']
    constructor
    · rw [(sortById_perm _).length_eq]
      simp
    · intro x hx
      exact (sortById_perm _).mem_iff.mpr (List.mem_append.mpr (Or.inl hx))

/-- Concrete run of claim C10: a PUT to path id A whose body carries id B
overwrites A.json with a record of id B, and the cache, which held only A,
grows to two records with A untouched. -/
theorem claim_C10_witness :
    ∃ med, (PUT ("A") medB 777
        ⟨fun _ => none, ⟨some [medA], 10⟩⟩).state.fsys ("A.json") = some med
      ∧ med.id = "B"
      ∧ med.id ≠ "A"
      ∧ ∃ l', (PUT ("A") medB 777
            ⟨fun _ => none, ⟨some [medA], 10⟩⟩).state.cache.medicationsCache
          = some l'
        ∧ (∃ x ∈ l', x.id = "B")
        ∧ l'.length = 2
        ∧ medA ∈ l' := by
  obtain ⟨med, hf, hid, hnp, hc⟩ := claim_C10_put_key_mismatch ("A") medB 777
    ⟨fun _ => none, ⟨some [medA], 10⟩⟩ (by decide)
  obtain ⟨l', hl', hex, hins⟩ := hc [medA] rfl
  obtain ⟨hlen, hold⟩ := hins (by decide)
  exact ⟨med, hf, hid, hnp, l', hl', hex, by simpa using hlen,
    hold medA (by simp)⟩

end OpenMed
